import Mathlib

/-!
Verification of the FX-Carry repository (fxlens).

Shallow embedding of the data-retrieval-and-derivation pipeline:
  - src/fetch_data.py : compute_realised_vol, fetch_and_store, init_db
    (SQLite persistence, modelled as explicit list-valued tables)
  - src/app.py        : realised_vol, load_data (cached variant)

Modelling conventions:
  - Python floats are modelled as real numbers; decimal literals from the
    source become exact rational literals (coerced to the reals where the
    volatility computation forces real arithmetic via log and sqrt).
  - `round(x, k)` is modelled as floor (x * 10^k + 1/2) / 10^k.
  - Each external provider call is an oracle outcome of type
    `Except Unit (Option Q)` (exception, or a possibly missing value) or
    `Except Unit (List ..)` for the history and batched spot calls; the
    assemblers are functions of an environment bundling these outcomes.
  - Python truthiness at the fallback sites (the `or` idiom and `if raw:`)
    is modelled explicitly: a numeric value is falsy exactly when it is 0,
    and None is falsy.
  - The mutable `using_fallback` boolean of load_data is accumulated only
    by `= True` assignments at fixed sites, so it is modelled as the
    disjunction of those per-site conditions.
-/

set_option autoImplicit false

namespace FxLens

/-- Round to k decimal places, on the rationals (models Python round, with
half always rounded up rather than the banker tie-break on floats). -/
def roundQ (k : ℕ) (x : ℚ) : ℚ :=
  (⌊x * 10 ^ k + 1 / 2⌋ : ℤ) / 10 ^ k

/-- Round to k decimal places, on the reals. -/
noncomputable def roundR (k : ℕ) (x : ℝ) : ℝ :=
  (⌊x * 10 ^ k + 1 / 2⌋ : ℤ) / 10 ^ k

/-- Python `a or b` for an optional number a and a default b: a is kept
only when it is truthy (present and nonzero). -/
def pyOrD (v : Option ℚ) (d : ℚ) : ℚ :=
  match v with
  | none => d
  | some x => if x = 0 then d else x

/-- Python `a or b` when both operands are optional numbers. -/
def pyOrOpt (v w : Option ℚ) : Option ℚ :=
  match v with
  | none => w
  | some x => if x = 0 then w else some x

/-- Python `a or b` on optional reals (the volatility fallback site). -/
noncomputable def pyOrR (v w : Option ℝ) : Option ℝ :=
  match v with
  | none => w
  | some x => if x = 0 then w else some x

/-- compute_realised_vol from src/fetch_data.py lines 172-184: annualised
1M realised volatility from the chronologically ordered price list (the
Python dict values in sorted-date order); fewer than 5 prices gives None.
log_rets is the list of one-period log returns between consecutive
prices, zipped from the list and its tail. -/
noncomputable def compute_realised_vol (prices : List ℝ) : Option ℝ :=
  if prices.length < 5 then none
  else
    let log_rets := List.zipWith (fun p q => Real.log (q / p)) prices prices.tail
    let mean := log_rets.sum / (log_rets.length : ℝ)
    let variance := (log_rets.map (fun r => (r - mean) ^ 2)).sum / ((log_rets.length - 1 : ℕ) : ℝ)
    let daily_std := Real.sqrt variance
    some (roundR 2 (daily_std * Real.sqrt 252 * 100))

/-- realised_vol from src/app.py lines 127-133; its body is line for line
the same computation as compute_realised_vol. -/
noncomputable def realised_vol (prices : List ℝ) : Option ℝ :=
  compute_realised_vol prices

/-- The volatility formula exactly as the specification words it (claim
C2): the n-1 consecutive log returns ln(p[i]/p[i-1]), their mean, the sum
of squared deviations divided by n-2 (one less than the return count),
then round(sqrt(V) * sqrt(252) * 100, 2); null below 5 observations. -/
noncomputable def vol_spec (prices : List ℝ) : Option ℝ :=
  let n := prices.length
  if n < 5 then none
  else
    let ret : ℕ → ℝ := fun i => Real.log (prices.getD (i + 1) 0 / prices.getD i 0)
    let mean := ((List.range (n - 1)).map ret).sum / ((n - 1 : ℕ) : ℝ)
    let V := ((List.range (n - 1)).map (fun i => (ret i - mean) ^ 2)).sum / ((n - 2 : ℕ) : ℝ)
    some (roundR 2 (Real.sqrt V * Real.sqrt 252 * 100))

/-! ## Currency configuration (identical tables in src/fetch_data.py and src/app.py) -/

/-- A CurrencyDefinition row: code, display name, group tag and the
optional FRED policy-rate series id (absent means USD-pegged GCC). -/
structure Currency where
  code : String
  name : String
  grp : String
  fred_series : Option String
deriving DecidableEq

/-- CURRENCIES from src/fetch_data.py lines 31-51 (same list in
src/app.py lines 43-61). -/
def CURRENCIES : List Currency := [
  ⟨"EUR", "Euro", "G10", some "ECBDFR"⟩,
  ⟨"JPY", "Japanese Yen", "G10", some "IRSTCI01JPM156N"⟩,
  ⟨"GBP", "British Pound", "G10", some "BOEBR"⟩,
  ⟨"CHF", "Swiss Franc", "G10", some "SNBPOLFCIR"⟩,
  ⟨"AUD", "Australian Dollar", "G10", some "RBATCTR"⟩,
  ⟨"NZD", "New Zealand Dollar", "G10", some "RBNZOCR"⟩,
  ⟨"CAD", "Canadian Dollar", "G10", some "CAPCBEPCBREPO"⟩,
  ⟨"NOK", "Norwegian Krone", "Europe", some "IRSTCI01NOM156N"⟩,
  ⟨"DKK", "Danish Krone", "Europe", some "IRSTCI01DKM156N"⟩,
  ⟨"PLN", "Polish Zloty", "Europe", some "IRSTCI01PLM156N"⟩,
  ⟨"MXN", "Mexican Peso", "EM", some "IRSTCI01MXM156N"⟩,
  ⟨"SAR", "Saudi Riyal", "GCC", none⟩,
  ⟨"AED", "UAE Dirham", "GCC", none⟩,
  ⟨"OMR", "Omani Rial", "GCC", none⟩,
  ⟨"KWD", "Kuwaiti Dinar", "GCC", none⟩,
  ⟨"QAR", "Qatari Riyal", "GCC", none⟩,
  ⟨"BHD", "Bahraini Dinar", "GCC", none⟩]

/-- GCC_SPREADS (fetch_data.py lines 54-61, app.py line 63). -/
def GCC_SPREADS : List (String × ℚ) :=
  [("SAR", 1.00), ("AED", -0.10), ("OMR", 0.50), ("KWD", 0.00), ("QAR", 0.60), ("BHD", 1.00)]

/-- GCC_SPOTS (fetch_data.py lines 64-71, app.py line 64). -/
def GCC_SPOTS : List (String × ℚ) :=
  [("SAR", 3.7500), ("AED", 3.6725), ("OMR", 0.3850), ("KWD", 0.3075), ("QAR", 3.6400), ("BHD", 0.3770)]

/-- HIST_RATIOS (fetch_data.py lines 75-93, app.py lines 66-84):
per code, the four hardcoded historical carry/vol values (1Y, 3Y, 5Y, 10Y). -/
def HIST_RATIOS : List (String × (ℚ × ℚ × ℚ × ℚ)) := [
  ("EUR", (-0.33, -0.20, -0.14, -0.07)),
  ("JPY", (-0.43, -0.36, -0.26, -0.19)),
  ("GBP", (0.00, -0.06, 0.00, -0.03)),
  ("CHF", (-0.63, -0.40, -0.49, -0.33)),
  ("AUD", (-0.05, -0.03, -0.02, 0.13)),
  ("NZD", (-0.03, 0.05, 0.06, 0.16)),
  ("CAD", (-0.06, 0.00, -0.03, 0.01)),
  ("NOK", (-0.05, -0.03, -0.08, 0.00)),
  ("DKK", (-0.86, -0.53, -0.43, -0.25)),
  ("PLN", (0.08, 0.26, 0.19, 0.11)),
  ("MXN", (0.41, 0.41, 0.38, 0.39)),
  ("SAR", (0.72, 0.52, 0.38, 0.25)),
  ("AED", (-0.08, -0.05, -0.04, -0.02)),
  ("OMR", (0.40, 0.32, 0.27, 0.18)),
  ("KWD", (0.05, 0.08, 0.12, 0.20)),
  ("QAR", (0.52, 0.40, 0.30, 0.20)),
  ("BHD", (0.72, 0.55, 0.42, 0.28))]

/-- One FALLBACK entry of src/app.py: spot, policy_rate and vol literals. -/
structure Fallback where
  spot : ℚ
  policy_rate : ℚ
  vol : ℚ
deriving DecidableEq

/-- FALLBACK from src/app.py lines 86-104 (cached variant only; the
persistent variant has no such table). -/
def FALLBACK : List (String × Fallback) := [
  ("EUR", ⟨1.0435, 2.15, 6.8⟩),
  ("JPY", ⟨151.80, 0.75, 9.8⟩),
  ("GBP", ⟨1.2595, 3.75, 7.1⟩),
  ("CHF", ⟨0.8992, 0.00, 5.6⟩),
  ("AUD", ⟨0.6352, 3.85, 10.3⟩),
  ("NZD", ⟨0.5748, 2.25, 10.9⟩),
  ("CAD", ⟨1.4280, 2.25, 7.8⟩),
  ("NOK", ⟨11.042, 4.00, 9.2⟩),
  ("DKK", ⟨7.079, 1.75, 3.8⟩),
  ("PLN", ⟨4.068, 4.00, 8.4⟩),
  ("MXN", ⟨20.45, 7.00, 13.8⟩),
  ("SAR", ⟨3.7500, 4.75, 1.2⟩),
  ("AED", ⟨3.6725, 3.65, 0.9⟩),
  ("OMR", ⟨0.3850, 4.25, 1.1⟩),
  ("KWD", ⟨0.3075, 3.75, 1.4⟩),
  ("QAR", ⟨3.6400, 4.35, 1.0⟩),
  ("BHD", ⟨0.3770, 4.75, 1.2⟩)]

/-- The inline tuple ("EUR", "GBP", "CHF", "AUD", "NZD") used at both
spot-inversion sites: pairs conventionally quoted USD-per-unit. -/
def INVERT_CODES : List String := ["EUR", "GBP", "CHF", "AUD", "NZD"]

/-! ## Provider environment: one oracle outcome per external call of a cycle -/

/-- The outcomes of the per-currency provider calls in one fetch cycle:
the FRED policy-rate call (an exception, or a possibly missing value) and
the 35-day spot-history call (an exception, or a date-sorted list of
(date, price) pairs). -/
structure CurrencyEnv where
  policy : Except Unit (Option ℚ)
  hist : Except Unit (List (String × ℚ))

/-- All provider outcomes of one fetch cycle: the FEDFUNDS call, the
batched spot call (an association list code to rate), and the
per-currency calls keyed by currency code. -/
structure Env where
  fed : Except Unit (Option ℚ)
  spots : Except Unit (List (String × ℚ))
  percur : String → CurrencyEnv

/-- Replace the whole per-currency oracle of one code. -/
def updatePercur (env : Env) (d : String) (ce : CurrencyEnv) : Env :=
  { env with percur := fun s => if s = d then ce else env.percur s }

/-- Replace only the policy-rate oracle of one code. -/
def updatePolicy (env : Env) (d : String) (p : Except Unit (Option ℚ)) : Env :=
  { env with percur := fun s =>
      if s = d then { policy := p, hist := (env.percur s).hist } else env.percur s }

/-! ## Snapshot assembler, cached variant (load_data, src/app.py lines 135-192) -/

/-- A snapshot row of the cached variant (the dict appended to rows in
src/app.py lines 186-190). -/
structure Row where
  code : String
  name : String
  grp : String
  spot : Option ℚ
  policy_rate : ℚ
  fed_rate : ℚ
  carry : ℚ
  vol_1m : Option ℝ
  ratio_now : Option ℝ
  hist_1y : Option ℚ
  hist_3y : Option ℚ
  hist_5y : Option ℚ
  hist_10y : Option ℚ

/-- app.py lines 139-143: fed_rate = fetch_fred("FEDFUNDS") or 3.75,
with 3.75 on an exception as well. -/
def resolvedFed (env : Env) : ℚ :=
  match env.fed with
  | .error _ => 3.75
  | .ok v => pyOrD v 3.75

/-- The except branch of the FEDFUNDS call sets using_fallback. -/
def fedFellBack (env : Env) : Bool :=
  match env.fed with
  | .error _ => true
  | .ok _ => false

/-- app.py lines 146-150 (and fetch_data.py lines 207-212): the spots
dict, empty on an exception. -/
def resolvedSpots (env : Env) : List (String × ℚ) :=
  match env.spots with
  | .error _ => []
  | .ok l => l

/-- The except branch of the batched spot call sets using_fallback. -/
def spotsFellBack (env : Env) : Bool :=
  match env.spots with
  | .error _ => true
  | .ok _ => false

/-- app.py lines 156-163: spot resolution. GCC takes the fixed constant;
otherwise raw = spots.get(code) and, when raw is truthy, the reciprocal
rounded to 4 places for the USD-per-unit subset, else raw itself; a falsy
raw falls back to the FALLBACK spot. -/
def appSpotVal (spots : List (String × ℚ)) (c : Currency) : Option ℚ :=
  match c.fred_series with
  | none => GCC_SPOTS.lookup c.code
  | some _ =>
    match spots.lookup c.code with
    | some r =>
      if r = 0 then (FALLBACK.lookup c.code).map Fallback.spot
      else some (if c.code ∈ INVERT_CODES then roundQ 4 (1 / r) else r)
    | none => (FALLBACK.lookup c.code).map Fallback.spot

/-- fb.get("policy_rate", fed_rate): the per-currency FALLBACK policy
rate, defaulting to the reference rate when the code has no entry. -/
def fbPolicy (fed : ℚ) (code : String) : ℚ :=
  match FALLBACK.lookup code with
  | some fb => fb.policy_rate
  | none => fed

/-- app.py lines 165-171: policy-rate resolution. GCC adds the fixed
spread to the reference rate; otherwise fetch_fred(series) or the
fallback (also on an exception). -/
def appPolicy (fed : ℚ) (e : CurrencyEnv) (c : Currency) : ℚ :=
  match c.fred_series with
  | none => fed + (GCC_SPREADS.lookup c.code).getD 0
  | some _ =>
    match e.policy with
    | .error _ => fbPolicy fed c.code
    | .ok v => pyOrD v (fbPolicy fed c.code)

/-- fb.get("vol") as an optional real. -/
noncomputable def fbVol (code : String) : Option ℝ :=
  (FALLBACK.lookup code).map (fun fb => (fb.vol : ℝ))

/-- app.py lines 175-182: volatility resolution. GCC takes
fb.get("vol", 1.0); otherwise realised_vol(history) or the fallback vol
(also on an exception of the history fetch). -/
noncomputable def appVolVal (e : CurrencyEnv) (c : Currency) : Option ℝ :=
  match c.fred_series with
  | none =>
    some (match FALLBACK.lookup c.code with
          | some fb => (fb.vol : ℝ)
          | none => 1)
  | some _ =>
    match e.hist with
    | .error _ => fbVol c.code
    | .ok h => pyOrR (realised_vol (h.map (fun ds => ((ds.2 : ℚ) : ℝ)))) (fbVol c.code)

/-- The ratio site (app.py line 184 and fetch_data.py line 272):
round(carry/vol, 3) if vol and vol > 0 else None. -/
noncomputable def ratioOf (carry : ℚ) (vol : Option ℝ) : Option ℝ :=
  match vol with
  | none => none
  | some v => if v ≠ 0 ∧ 0 < v then some (roundR 3 ((carry : ℝ) / v)) else none

/-- One assembled row of the cached variant for one currency. -/
noncomputable def appRow (fed : ℚ) (spots : List (String × ℚ)) (e : CurrencyEnv)
    (c : Currency) : Row :=
  { code := c.code
    name := c.name
    grp := c.grp
    spot := appSpotVal spots c
    policy_rate := appPolicy fed e c
    fed_rate := fed
    carry := roundQ 2 (appPolicy fed e c - fed)
    vol_1m := appVolVal e c
    ratio_now := ratioOf (roundQ 2 (appPolicy fed e c - fed)) (appVolVal e c)
    hist_1y := (HIST_RATIOS.lookup c.code).map (fun h => h.1)
    hist_3y := (HIST_RATIOS.lookup c.code).map (fun h => h.2.1)
    hist_5y := (HIST_RATIOS.lookup c.code).map (fun h => h.2.2.1)
    hist_10y := (HIST_RATIOS.lookup c.code).map (fun h => h.2.2.2) }

/-- The using_fallback sites inside the per-currency loop body: a falsy
spots.get(code), a policy-call exception, a history-call exception. All
sites are guarded by the non-GCC branch. -/
def appRowFlag (spots : List (String × ℚ)) (e : CurrencyEnv) (c : Currency) : Bool :=
  match c.fred_series with
  | none => false
  | some _ =>
    (match spots.lookup c.code with
     | none => true
     | some r => decide (r = 0))
    || (match e.policy with | .error _ => true | .ok _ => false)
    || (match e.hist with | .error _ => true | .ok _ => false)

/-- The final value of the mutable using_fallback boolean: the
disjunction of all the sites that assign True to it. -/
def load_data_flag (env : Env) : Bool :=
  fedFellBack env || spotsFellBack env
    || CURRENCIES.any (fun c => appRowFlag (resolvedSpots env) (env.percur c.code) c)

/-- load_data from src/app.py lines 135-192: the full row set (one row
per configured currency, in configuration order) and the using_fallback
flag of the cycle. -/
noncomputable def load_data (env : Env) : List Row × Bool :=
  (CURRENCIES.map (fun c => appRow (resolvedFed env) (resolvedSpots env) (env.percur c.code) c),
   load_data_flag env)

/-! ## Snapshot assembler, persistent variant (fetch_and_store,
src/fetch_data.py lines 187-295).

The only uncaught-exception site of the per-currency loop is the plain
arithmetic on fed_rate and policy_rate: when the FEDFUNDS call succeeds
but returns a missing value, fed_rate is Python None (stage 1 has no `or`
fallback there, unlike app.py), and the lines
  policy_rate = fed_rate + GCC_SPREADS.get(code, 0)     (GCC)
  carry = round(policy_rate - fed_rate, 2)              (all rows)
raise a TypeError. The embedding makes every such arithmetic-on-None
point an Except.error. -/

/-- A persisted fx_snapshots row (fetch_data.py lines 278-282). -/
structure FRow where
  fetched_at : String
  code : String
  name : String
  grp : String
  spot : Option ℚ
  policy_rate : ℚ
  fed_rate : ℚ
  carry : ℚ
  vol_1m : Option ℝ
  ratio_now : Option ℝ
  hist_1y : Option ℚ
  hist_3y : Option ℚ
  hist_5y : Option ℚ
  hist_10y : Option ℚ

/-- fetch_data.py lines 196-202: fed_rate is 3.75 on an exception but is
kept as-is (possibly None) on a successful call. -/
def resolvedFedF (env : Env) : Option ℚ :=
  match env.fed with
  | .error _ => some 3.75
  | .ok v => v

/-- fetch_data.py lines 216-226: the policy_rates dict entry for a
non-GCC code; an exception stores None. -/
def fPolicyRaw (e : CurrencyEnv) : Option ℚ :=
  match e.policy with
  | .error _ => none
  | .ok v => v

/-- fetch_data.py lines 234-244: spot resolution of the persistent
variant. No fallback: a missing raw stays None, a zero raw is kept. -/
def fSpotVal (spot_rates : List (String × ℚ)) (c : Currency) : Option ℚ :=
  match c.fred_series with
  | none => GCC_SPOTS.lookup c.code
  | some _ =>
    match spot_rates.lookup c.code with
    | some r =>
      if r ≠ 0 ∧ c.code ∈ INVERT_CODES then some (roundQ 4 (1 / r)) else some r
    | none => none

/-- fetch_data.py lines 246-250: policy_rate as an optional number
(GCC arithmetic on a None fed_rate raises, modelled by the caller), plus
line 252 where carry arithmetic raises whenever policy_rate or fed_rate
is None. This step returns the policy rate or the TypeError. -/
def fPolicyStep (fed : Option ℚ) (e : CurrencyEnv) (c : Currency) : Except Unit ℚ :=
  match c.fred_series with
  | none =>
    match fed with
    | none => .error ()
    | some f => .ok (f + (GCC_SPREADS.lookup c.code).getD 0)
  | some _ =>
    match pyOrOpt (fPolicyRaw e) fed with
    | none => .error ()
    | some p => .ok p

/-- fetch_data.py lines 255-269: the volatility of the persistent
variant together with the spot_history inserts (date, code, spot) issued
inside the same try block; an exception of the history fetch leaves vol
None and issues no insert. -/
noncomputable def fVolStep (e : CurrencyEnv) (c : Currency) :
    Option ℝ × List (String × String × ℚ) :=
  match c.fred_series with
  | none => (some 0.8, [])
  | some _ =>
    match e.hist with
    | .error _ => (none, [])
    | .ok h =>
      (compute_realised_vol (h.map (fun ds => ((ds.2 : ℚ) : ℝ))),
       h.map (fun ds => (ds.1, c.code, ds.2)))

/-- One loop iteration of fetch_and_store for one currency: the row and
its spot_history inserts, or the uncaught TypeError of the rate
arithmetic when fed_rate is None. -/
noncomputable def fRow (ts : String) (fed : Option ℚ) (spot_rates : List (String × ℚ))
    (e : CurrencyEnv) (c : Currency) :
    Except Unit (FRow × List (String × String × ℚ)) := do
  let policy_rate ← fPolicyStep fed e c
  let f ← (match fed with
           | some f => Except.ok f
           | none => Except.error () : Except Unit ℚ)
  let carry := roundQ 2 (policy_rate - f)
  let vi := fVolStep e c
  Except.ok
    ({ fetched_at := ts
       code := c.code
       name := c.name
       grp := c.grp
       spot := fSpotVal spot_rates c
       policy_rate := policy_rate
       fed_rate := f
       carry := carry
       vol_1m := vi.1
       ratio_now := ratioOf carry vi.1
       hist_1y := (HIST_RATIOS.lookup c.code).map (fun h => h.1)
       hist_3y := (HIST_RATIOS.lookup c.code).map (fun h => h.2.1)
       hist_5y := (HIST_RATIOS.lookup c.code).map (fun h => h.2.2.1)
       hist_10y := (HIST_RATIOS.lookup c.code).map (fun h => h.2.2.2) },
     vi.2)

/-- The sequential per-currency loop: an uncaught exception aborts the
rest of the cycle. -/
noncomputable def rowsLoop (ts : String) (fed : Option ℚ) (spot_rates : List (String × ℚ))
    (percur : String → CurrencyEnv) :
    List Currency → Except Unit (List (FRow × List (String × String × ℚ)))
  | [] => .ok []
  | c :: rest => do
    let x ← fRow ts fed spot_rates (percur c.code) c
    let xs ← rowsLoop ts fed spot_rates percur rest
    .ok (x :: xs)

/-- The persistent store: the fx_snapshots table and the spot_history
table (rows (date, code, spot)), both in insertion order. -/
structure DB where
  snapshots : List FRow
  spot_history : List (String × String × ℚ)

/-- INSERT OR IGNORE into spot_history under the UNIQUE(date, code)
constraint of init_db (fetch_data.py lines 118-126, 261-265): a row
whose (date, code) pair is already present is silently dropped. -/
def insertOrIgnore (tbl : List (String × String × ℚ)) (r : String × String × ℚ) :
    List (String × String × ℚ) :=
  if tbl.any (fun x => x.1 == r.1 && x.2.1 == r.2.1) then tbl else tbl ++ [r]

/-- fetch_and_store from src/fetch_data.py lines 187-295: runs the loop,
appends the full row set to fx_snapshots and folds all spot_history
inserts of the cycle (uncommitted work is discarded when the cycle
raises, so an error leaves the store untouched). -/
noncomputable def fetch_and_store (ts : String) (env : Env) (db : DB) : Except Unit DB := do
  let steps ← rowsLoop ts (resolvedFedF env) (resolvedSpots env) env.percur CURRENCIES
  Except.ok
    { snapshots := db.snapshots ++ steps.map Prod.fst
      spot_history := ((steps.map Prod.snd).flatten).foldl insertOrIgnore db.spot_history }

/-- Modelled from the spec: the companion latest-row-per-code lookup is
described in section 4.3 of the spec (a group-wise max-timestamp join on
fx_snapshots) but no query of the repository issues it, so it is encoded
from the specification words: keep exactly the rows with no strictly
later row of the same code. ISO-8601 UTC timestamps compare
lexicographically as strings. -/
def latestPerCode (snap : List FRow) : List FRow :=
  snap.filter (fun r =>
    snap.all (fun s => !(s.code == r.code) || !(decide (r.fetched_at < s.fetched_at))))

/-! ## Concrete cycle environments used by witnesses and counterexamples -/

/-- A batched spot result carrying every non-GCC code with a nonzero rate. -/
def SPOTS0 : List (String × ℚ) :=
  [("EUR", 2), ("JPY", 150), ("GBP", 2), ("CHF", 2), ("AUD", 2),
   ("NZD", 2), ("CAD", 2), ("NOK", 10), ("DKK", 7), ("PLN", 4), ("MXN", 17)]

/-- A five-day history of identical unit prices. -/
def HIST1 : List (String × ℚ) :=
  [("2024-01-01", 1), ("2024-01-02", 1), ("2024-01-03", 1), ("2024-01-04", 1), ("2024-01-05", 1)]

/-- A cycle in which every provider call succeeds with a nonzero value. -/
def envBase : Env :=
  { fed := .ok (some 4)
    spots := .ok SPOTS0
    percur := fun _ => { policy := .ok (some 2), hist := .ok HIST1 } }

/-- envBase, except that the EUR policy call succeeds with a missing
value. -/
def envX : Env :=
  { envBase with percur := fun s =>
      if s = "EUR" then { policy := .ok none, hist := .ok HIST1 }
      else { policy := .ok (some 2), hist := .ok HIST1 } }

/-- envBase, except that the FEDFUNDS call succeeds with a missing
value. -/
def envY : Env := { envBase with fed := .ok none }

/-- envBase, except that the EUR policy call succeeds with the value
0.00. -/
def envZ : Env :=
  { envBase with percur := fun s =>
      if s = "EUR" then { policy := .ok (some 0), hist := .ok HIST1 }
      else { policy := .ok (some 2), hist := .ok HIST1 } }

/-- envBase, except that the FEDFUNDS call succeeds with the value 0.0. -/
def envFed0 : Env := { envBase with fed := .ok (some 0) }

/-- envBase, except that the FEDFUNDS call raises. -/
def envFedErr : Env := { envBase with fed := .error () }

/-- envBase, except that the EUR policy call raises. -/
def envPolErr : Env :=
  { envBase with percur := fun s =>
      if s = "EUR" then { policy := .error (), hist := .ok HIST1 }
      else { policy := .ok (some 2), hist := .ok HIST1 } }

/-- envBase, except that the EUR history call raises. -/
def envHistErr : Env :=
  { envBase with percur := fun s =>
      if s = "EUR" then { policy := .ok (some 2), hist := .error () }
      else { policy := .ok (some 2), hist := .ok HIST1 } }

/-- envBase, except that the batched spot call returns an empty dict. -/
def envSpotMiss : Env := { envBase with spots := .ok [] }

/-- The empty store. -/
def db0 : DB := { snapshots := [], spot_history := [] }

/-- The EUR configuration row. -/
def eurC : Currency := ⟨"EUR", "Euro", "G10", some "ECBDFR"⟩

/-- The SAR configuration row (pegged). -/
def sarC : Currency := ⟨"SAR", "Saudi Riyal", "GCC", none⟩

/-- Two snapshot rows of one code at increasing timestamps, for the
latest-per-code lookup. -/
def frowAt (ts : String) (pr : ℚ) : FRow :=
  { fetched_at := ts, code := "EUR", name := "Euro", grp := "G10", spot := none
    policy_rate := pr, fed_rate := 4, carry := pr - 4, vol_1m := none, ratio_now := none
    hist_1y := none, hist_3y := none, hist_5y := none, hist_10y := none }

/-- The value produced by one fetch_and_store loop iteration when
fed_rate resolved to a number f (the only case in which the iteration
does not raise). -/
noncomputable def fRowVal (ts : String) (f : ℚ) (spot_rates : List (String × ℚ))
    (e : CurrencyEnv) (c : Currency) : FRow × List (String × String × ℚ) :=
  let policy_rate : ℚ :=
    match c.fred_series with
    | none => f + (GCC_SPREADS.lookup c.code).getD 0
    | some _ => pyOrD (fPolicyRaw e) f
  let carry := roundQ 2 (policy_rate - f)
  let vi := fVolStep e c
  ({ fetched_at := ts
     code := c.code
     name := c.name
     grp := c.grp
     spot := fSpotVal spot_rates c
     policy_rate := policy_rate
     fed_rate := f
     carry := carry
     vol_1m := vi.1
     ratio_now := ratioOf carry vi.1
     hist_1y := (HIST_RATIOS.lookup c.code).map (fun h => h.1)
     hist_3y := (HIST_RATIOS.lookup c.code).map (fun h => h.2.1)
     hist_5y := (HIST_RATIOS.lookup c.code).map (fun h => h.2.2.1)
     hist_10y := (HIST_RATIOS.lookup c.code).map (fun h => h.2.2.2) },
   vi.2)

/-! ## General list helpers -/

theorem zipWith_consec (f : ℝ → ℝ → ℝ) :
    ∀ l : List ℝ, List.zipWith f l l.tail =
      (List.range (l.length - 1)).map (fun i => f (l.getD i 0) (l.getD (i + 1) 0))
  | [] => by simp
  | [_] => by simp
  | a :: b :: t => by
    have ih := zipWith_consec f (b :: t)
    simp only [List.tail_cons] at ih ⊢
    rw [List.zipWith_cons_cons, ih]
    simp only [List.length_cons, Nat.add_sub_cancel, List.range_succ_eq_map]
    simp only [List.map_cons, List.map_map]
    refine congrArg₂ _ (by simp) ?_
    refine List.map_congr_left (fun i _ => ?_)
    simp [List.getD_cons_succ]

theorem zipWith_congr_mem (f g : ℝ → ℝ → ℝ) :
    ∀ (a b : List ℝ), (∀ x ∈ a, ∀ y ∈ b, f x y = g x y) →
      List.zipWith f a b = List.zipWith g a b
  | [], _, _ => by simp
  | _ :: _, [], _ => by simp
  | x :: xs, y :: ys, h => by
    simp only [List.zipWith_cons_cons]
    refine congrArg₂ _ (h x (by simp) y (by simp)) ?_
    exact zipWith_congr_mem f g xs ys (fun u hu v hv => h u (by simp [hu]) v (by simp [hv]))

theorem mem_zipWith_imp {f : ℝ → ℝ → ℝ} :
    ∀ {a b : List ℝ} {x : ℝ}, x ∈ List.zipWith f a b → ∃ u ∈ a, ∃ v ∈ b, x = f u v
  | [], _, _, h => by simp at h
  | _ :: _, [], _, h => by simp at h
  | u :: us, v :: vs, x, h => by
    simp only [List.zipWith_cons_cons, List.mem_cons] at h
    rcases h with rfl | h
    · exact ⟨u, by simp, v, by simp, rfl⟩
    · obtain ⟨u', hu, v', hv, rfl⟩ := mem_zipWith_imp h
      exact ⟨u', by simp [hu], v', by simp [hv], rfl⟩

theorem sum_map_neg_list (l : List ℝ) : (l.map (fun x => -x)).sum = -l.sum := by
  induction l with
  | nil => simp
  | cons a t ih => simp [ih]; ring

/-! ## Volatility estimator lemmas -/

theorem roundR_nonneg (k : ℕ) (x : ℝ) (hx : 0 ≤ x) : 0 ≤ roundR k x := by
  unfold roundR
  have h1 : (0:ℤ) ≤ ⌊x * 10 ^ k + 1 / 2⌋ := by
    rw [Int.le_floor]
    push_cast
    have : (0:ℝ) ≤ x * 10 ^ k := by positivity
    linarith
  have h2 : (0:ℝ) ≤ (⌊x * 10 ^ k + 1 / 2⌋ : ℝ) := by exact_mod_cast h1
  positivity

/-- The estimator agrees with the indexed formula of the spec. -/
theorem crv_eq_vol_spec (prices : List ℝ) : compute_realised_vol prices = vol_spec prices := by
  by_cases h : prices.length < 5
  · simp [compute_realised_vol, vol_spec, h]
  · simp only [compute_realised_vol, vol_spec, h, if_false]
    rw [zipWith_consec (fun p q => Real.log (q / p)) prices]
    simp only [List.length_map, List.length_range, Nat.sub_sub]
    norm_num [Function.comp_def]

/-- Identical nonzero prices give an exact zero volatility. -/
theorem crv_const (prices : List ℝ) (c : ℝ) (h5 : 5 ≤ prices.length) (hc : c ≠ 0)
    (hall : ∀ p ∈ prices, p = c) : compute_realised_vol prices = some 0 := by
  have hlt : ¬ prices.length < 5 := by omega
  have hz : List.zipWith (fun p q => Real.log (q / p)) prices prices.tail
      = List.zipWith (fun _ _ => (0:ℝ)) prices prices.tail := by
    apply zipWith_congr_mem
    intro x hx y hy
    rw [hall x hx, hall y (List.mem_of_mem_tail hy), div_self hc, Real.log_one]
  have hmem : ∀ x ∈ List.zipWith (fun _ _ => (0:ℝ)) prices prices.tail, x = (0:ℝ) := by
    intro x hx
    obtain ⟨_, _, _, _, rfl⟩ := mem_zipWith_imp hx
    rfl
  have hsum : (List.zipWith (fun _ _ => (0:ℝ)) prices prices.tail).sum = 0 :=
    List.sum_eq_zero hmem
  have hsum2 :
      ((List.zipWith (fun _ _ => (0:ℝ)) prices prices.tail).map
        (fun r => (r - (List.zipWith (fun _ _ => (0:ℝ)) prices prices.tail).sum /
          ((List.zipWith (fun _ _ => (0:ℝ)) prices prices.tail).length : ℝ)) ^ 2)).sum = 0 := by
    apply List.sum_eq_zero
    intro x hx
    obtain ⟨r, hr, rfl⟩ := List.mem_map.mp hx
    rw [hmem r hr, hsum]
    simp
  simp only [compute_realised_vol, hlt, if_false, hz, hsum2]
  rw [zero_div, Real.sqrt_zero, zero_mul, zero_mul]
  unfold roundR
  norm_num

/-- The estimator never returns a negative value. -/
theorem crv_nonneg (prices : List ℝ) (v : ℝ) (h : compute_realised_vol prices = some v) :
    0 ≤ v := by
  by_cases hlt : prices.length < 5
  · simp [compute_realised_vol, hlt] at h
  · simp only [compute_realised_vol, hlt, if_false, Option.some.injEq] at h
    subst h
    apply roundR_nonneg
    positivity

/-- The squared deviations of a sign-flipped return list have the same
sum. -/
theorem negret_sum (R : List ℝ) :
    ((R.map (fun x => -x)).map
      (fun r => (r - (R.map (fun x => -x)).sum / (R.length : ℝ)) ^ 2)).sum
    = (R.map (fun r => (r - R.sum / (R.length : ℝ)) ^ 2)).sum := by
  simp only [sum_map_neg_list, List.map_map]
  refine congrArg _ (List.map_congr_left fun r _ => ?_)
  simp only [Function.comp_apply, neg_div]
  ring

/-- Realised volatility is invariant under pointwise reciprocal of a
positive price series: the log returns only flip sign. -/
theorem crv_inv (prices : List ℝ) (hpos : ∀ p ∈ prices, 0 < p) :
    compute_realised_vol (prices.map (fun p => 1 / p)) = compute_realised_vol prices := by
  by_cases h : prices.length < 5
  · simp [compute_realised_vol, h]
  · have hmaplen : (prices.map (fun p => 1 / p)).length = prices.length := List.length_map _ _
    have h1 : List.zipWith (fun p q => Real.log (q / p)) (prices.map fun p => 1 / p)
          ((prices.map fun p => 1 / p).tail)
        = (List.zipWith (fun p q => Real.log (q / p)) prices prices.tail).map (fun x => -x) := by
      rw [← List.map_tail, List.zipWith_map, List.map_zipWith]
      apply zipWith_congr_mem
      intro x hx y hy
      have hx0 : x ≠ 0 := (hpos x hx).ne'
      have hy0 : y ≠ 0 := (hpos y (List.mem_of_mem_tail hy)).ne'
      have hq : (1 / y) / (1 / x) = x / y := by field_simp
      rw [hq, Real.log_div hx0 hy0, Real.log_div hy0 hx0]
      ring
    simp only [compute_realised_vol, hmaplen, h, if_false, h1, negret_sum, List.length_map]

/-! ## Configuration facts -/

theorem code_inj : ∀ a ∈ CURRENCIES, ∀ b ∈ CURRENCIES, a.code = b.code → a = b := by decide

theorem fallback_vol_pos :
    ∀ c ∈ CURRENCIES, ∃ fb, FALLBACK.lookup c.code = some fb ∧ fb.vol ≠ 0 ∧ 0 ≤ fb.vol := by
  intro c hc
  fin_cases hc <;> exact ⟨_, rfl, by norm_num, by norm_num⟩

/-! ## Cached-variant row lemmas -/

theorem appVol_ne_zero (e : CurrencyEnv) (c : Currency) (hc : c ∈ CURRENCIES) :
    appVolVal e c ≠ some 0 := by
  obtain ⟨fb, hfb, hne, -⟩ := fallback_vol_pos c hc
  have hfbv0 : (fb.vol : ℝ) ≠ 0 := by exact_mod_cast hne
  unfold appVolVal
  split
  · simp [hfb, hfbv0]
  · split
    · simp [fbVol, hfb, hfbv0]
    · unfold pyOrR
      split
      · simp [fbVol, hfb, hfbv0]
      · split
        · simp [fbVol, hfb, hfbv0]
        · next x hx => simp [hx]

theorem appVol_nonneg (e : CurrencyEnv) (c : Currency) (hc : c ∈ CURRENCIES)
    (v : ℝ) (h : appVolVal e c = some v) : 0 ≤ v := by
  obtain ⟨fb, hfb, -, hpos⟩ := fallback_vol_pos c hc
  have hpos2 : (0 : ℝ) ≤ (fb.vol : ℝ) := by exact_mod_cast hpos
  unfold appVolVal at h
  split at h
  · simp only [hfb, Option.some.injEq] at h
    rw [← h]
    exact hpos2
  · split at h
    · simp [fbVol, hfb] at h
      linarith [hpos2]
    · unfold pyOrR at h
      split at h
      · simp [fbVol, hfb] at h
        linarith [hpos2]
      · rename_i x heq
        split at h
        · simp [fbVol, hfb] at h
          linarith [hpos2]
        · simp only [Option.some.injEq] at h
          rw [← h]
          exact crv_nonneg _ x heq

theorem ratioOf_none_iff (carry : ℚ) (vol : Option ℝ)
    (hnn : ∀ v, vol = some v → 0 ≤ v) :
    ratioOf carry vol = none ↔ vol = none ∨ vol = some 0 := by
  cases vol with
  | none => simp [ratioOf]
  | some v =>
    have hv := hnn v rfl
    by_cases h0 : v = 0
    · subst h0
      simp [ratioOf]
    · have hlt : 0 < v := lt_of_le_of_ne hv (Ne.symm h0)
      simp [ratioOf, h0, hlt, not_lt_of_gt hlt]

theorem ratioOf_some (carry : ℚ) (v : ℝ) (h0 : v ≠ 0) (hv : 0 ≤ v) :
    ratioOf carry (some v) = some (roundR 3 ((carry : ℝ) / v)) := by
  have hlt : 0 < v := lt_of_le_of_ne hv (Ne.symm h0)
  simp [ratioOf, h0, hlt]

/-! ## Persistent-variant lemmas -/

theorem pyOrOpt_some (v : Option ℚ) (f : ℚ) : pyOrOpt v (some f) = some (pyOrD v f) := by
  cases v with
  | none => rfl
  | some x =>
    by_cases hx : x = 0 <;> simp [pyOrOpt, pyOrD, hx]

theorem bind_ok_ex {α β : Type} (a : α) (f : α → Except Unit β) :
    (Bind.bind (Except.ok a) f : Except Unit β) = f a := rfl

theorem bind_error_ex {α β : Type} (f : α → Except Unit β) :
    (Bind.bind (Except.error ()) f : Except Unit β) = Except.error () := rfl

theorem fRow_some (ts : String) (f : ℚ) (sr : List (String × ℚ)) (e : CurrencyEnv)
    (c : Currency) : fRow ts (some f) sr e c = .ok (fRowVal ts f sr e c) := by
  cases hs : c.fred_series with
  | none => simp [fRow, fRowVal, fPolicyStep, hs, bind_ok_ex]
  | some s => simp [fRow, fRowVal, fPolicyStep, hs, pyOrOpt_some, bind_ok_ex]

theorem fRow_none (ts : String) (sr : List (String × ℚ)) (e : CurrencyEnv)
    (c : Currency) : fRow ts none sr e c = .error () := by
  cases hs : c.fred_series with
  | none => simp [fRow, fPolicyStep, hs, bind_error_ex]
  | some s =>
    cases hv : fPolicyRaw e with
    | none => simp [fRow, fPolicyStep, hs, hv, pyOrOpt, bind_error_ex]
    | some x =>
      by_cases hx : x = 0 <;>
        simp [fRow, fPolicyStep, hs, hv, pyOrOpt, hx, bind_ok_ex, bind_error_ex]

theorem rowsLoop_ok (ts : String) (f : ℚ) (sr : List (String × ℚ))
    (pc : String → CurrencyEnv) :
    ∀ l : List Currency,
      rowsLoop ts (some f) sr pc l = .ok (l.map (fun c => fRowVal ts f sr (pc c.code) c))
  | [] => rfl
  | c :: rest => by
    simp [rowsLoop, fRow_some, rowsLoop_ok ts f sr pc rest, bind_ok_ex]

theorem rowsLoop_error (ts : String) (sr : List (String × ℚ))
    (pc : String → CurrencyEnv) (c : Currency) (rest : List Currency) :
    rowsLoop ts none sr pc (c :: rest) = .error () := by
  simp [rowsLoop, fRow_none, bind_error_ex]

theorem fedF_none_iff (env : Env) : resolvedFedF env = none ↔ env.fed = .ok none := by
  unfold resolvedFedF
  cases henv : env.fed with
  | error e => simp
  | ok v => cases v <;> simp

theorem fetch_ok (ts : String) (env : Env) (db : DB) (f : ℚ)
    (hf : resolvedFedF env = some f) :
    fetch_and_store ts env db = .ok
      { snapshots := db.snapshots ++
          CURRENCIES.map (fun c => (fRowVal ts f (resolvedSpots env) (env.percur c.code) c).1)
        spot_history :=
          ((CURRENCIES.map
            (fun c => (fRowVal ts f (resolvedSpots env) (env.percur c.code) c).2)).flatten).foldl
            insertOrIgnore db.spot_history } := by
  unfold fetch_and_store
  rw [hf, rowsLoop_ok, bind_ok_ex]
  simp [List.map_map, Function.comp_def]

theorem fetch_error (ts : String) (env : Env) (db : DB)
    (hf : resolvedFedF env = none) :
    fetch_and_store ts env db = .error () := by
  obtain ⟨c, rest, hC⟩ : ∃ c rest, CURRENCIES = c :: rest := ⟨_, _, rfl⟩
  unfold fetch_and_store
  rw [hf, hC, rowsLoop_error]
  rfl

theorem fetch_isOk (ts : String) (env : Env) (db : DB) (hfed : env.fed ≠ .ok none) :
    ∃ db', fetch_and_store ts env db = .ok db' := by
  cases hv : resolvedFedF env with
  | none => exact absurd ((fedF_none_iff env).mp hv) hfed
  | some f => exact ⟨_, fetch_ok ts env db f hv⟩

theorem foldl_insert_extends :
    ∀ (l : List (String × String × ℚ)) (tbl : List (String × String × ℚ)),
      ∃ t, l.foldl insertOrIgnore tbl = tbl ++ t
  | [], tbl => ⟨[], by simp⟩
  | r :: l, tbl => by
    obtain ⟨t, ht⟩ := foldl_insert_extends l (insertOrIgnore tbl r)
    rw [List.foldl_cons, ht]
    unfold insertOrIgnore
    split
    · exact ⟨t, rfl⟩
    · exact ⟨[r] ++ t, by simp⟩

/-- The persistent-variant volatility is never negative when present. -/
theorem fVol_nonneg (e : CurrencyEnv) (c : Currency) (v : ℝ)
    (h : (fVolStep e c).1 = some v) : 0 ≤ v := by
  unfold fVolStep at h
  split at h
  · simp only [Option.some.injEq] at h
    rw [← h]
    norm_num
  · split at h
    · simp at h
    · simp only at h
      exact crv_nonneg _ v h

theorem any_congr_mem {α : Type} (l : List α) (f g : α → Bool)
    (h : ∀ x ∈ l, f x = g x) : l.any f = l.any g := by
  induction l with
  | nil => rfl
  | cons a t ih =>
    simp only [List.any_cons, h a (by simp)]
    rw [ih (fun x hx => h x (by simp [hx]))]

theorem rowsLoop_congr (ts : String) (fed : Option ℚ) (sr : List (String × ℚ))
    (pc pc' : String → CurrencyEnv) :
    ∀ l : List Currency,
      (∀ c ∈ l, fRow ts fed sr (pc' c.code) c = fRow ts fed sr (pc c.code) c) →
      rowsLoop ts fed sr pc' l = rowsLoop ts fed sr pc l
  | [], _ => rfl
  | c :: rest, h => by
    unfold rowsLoop
    rw [h c (by simp), rowsLoop_congr ts fed sr pc pc' rest (fun x hx => h x (by simp [hx]))]

/-- A pegged currency row of the persistent variant does not read the
policy oracle: only the hist component of its oracle can matter. -/
theorem fRow_gcc_blind (ts : String) (fed : Option ℚ) (sr : List (String × ℚ))
    (e e' : CurrencyEnv) (c : Currency) (hg : c.fred_series = none)
    (hh : e'.hist = e.hist) : fRow ts fed sr e' c = fRow ts fed sr e c := by
  unfold fRow fPolicyStep fVolStep
  rw [hg, hh]

/-- Every cached-variant row whose code matches a configured currency
carries the appPolicy resolution of that currency. -/
theorem app_rows_policy (env : Env) (c : Currency) (hc : c ∈ CURRENCIES) :
    ∀ r ∈ (load_data env).1, r.code = c.code →
      r.policy_rate = appPolicy (resolvedFed env) (env.percur c.code) c := by
  intro r hr hcode
  obtain ⟨c', hc', rfl⟩ := List.mem_map.mp hr
  have hcc : c'.code = c.code := hcode
  obtain rfl : c' = c := code_inj c' hc' c hc hcc
  rfl

/-- Every freshly appended persistent row whose code matches a
configured currency carries the stage-3 policy resolution. -/
theorem fetch_rows_policy (ts : String) (env : Env) (db db' : DB) (f : ℚ)
    (c : Currency) (hc : c ∈ CURRENCIES) (hf : resolvedFedF env = some f)
    (hok : fetch_and_store ts env db = .ok db') :
    ∀ r ∈ db'.snapshots.drop db.snapshots.length, r.code = c.code →
      r.policy_rate =
        (match c.fred_series with
         | none => f + (GCC_SPREADS.lookup c.code).getD 0
         | some _ => pyOrD (fPolicyRaw (env.percur c.code)) f) := by
  intro r hr hcode
  rw [fetch_ok ts env db f hf] at hok
  simp only [Except.ok.injEq] at hok
  subst hok
  simp only [List.drop_left] at hr
  obtain ⟨c', hc', rfl⟩ := List.mem_map.mp hr
  have hcc : c'.code = c.code := hcode
  obtain rfl : c' = c := code_inj c' hc' c hc hcc
  rfl

/-- Every cached-variant row whose code matches a configured non-pegged
currency carries the appVolVal vol resolution of that currency. -/
theorem app_rows_vol (env : Env) (c : Currency) (hc : c ∈ CURRENCIES) :
    ∀ r ∈ (load_data env).1, r.code = c.code →
      r.vol_1m = appVolVal (env.percur c.code) c := by
  intro r hr hcode
  obtain ⟨c', hc', rfl⟩ := List.mem_map.mp hr
  have hcc : c'.code = c.code := hcode
  obtain rfl : c' = c := code_inj c' hc' c hc hcc
  rfl

/-- Every freshly appended persistent row whose code matches a
configured currency carries the fVolStep vol resolution. -/
theorem fetch_rows_vol (ts : String) (env : Env) (db db' : DB) (f : ℚ)
    (c : Currency) (hc : c ∈ CURRENCIES) (hf : resolvedFedF env = some f)
    (hok : fetch_and_store ts env db = .ok db') :
    ∀ r ∈ db'.snapshots.drop db.snapshots.length, r.code = c.code →
      r.vol_1m = (fVolStep (env.percur c.code) c).1 := by
  intro r hr hcode
  rw [fetch_ok ts env db f hf] at hok
  simp only [Except.ok.injEq] at hok
  subst hok
  simp only [List.drop_left] at hr
  obtain ⟨c', hc', rfl⟩ := List.mem_map.mp hr
  have hcc : c'.code = c.code := hcode
  obtain rfl : c' = c := code_inj c' hc' c hc hcc
  rfl

/-! ## Claims -/

/-- C2: for every chronologically ordered series of at least 5 positive
prices, the Volatility Estimator returns round(sqrt(V) * sqrt(252) * 100, 2)
where V is the sum of squared deviations of the n-1 consecutive log
returns from their mean divided by n-2 (the vol_spec formula, worded
from the spec), and for every series of fewer than 5 prices it returns
null; realised_vol of the cached variant computes the same function. -/
theorem claim_C2 (prices : List ℝ) (hpos : ∀ p ∈ prices, 0 < p) :
    compute_realised_vol prices = vol_spec prices ∧
    realised_vol prices = vol_spec prices ∧
    (prices.length < 5 → compute_realised_vol prices = none) := by
  refine ⟨crv_eq_vol_spec prices, crv_eq_vol_spec prices, fun h => ?_⟩
  simp [compute_realised_vol, h]

theorem claim_C2_witness :
    (∀ p ∈ ([1, 1, 1, 1, 2] : List ℝ), 0 < p) ∧
    (compute_realised_vol ([1, 1, 1, 1, 2] : List ℝ) = vol_spec ([1, 1, 1, 1, 2] : List ℝ) ∧
     realised_vol ([1, 1, 1, 1, 2] : List ℝ) = vol_spec ([1, 1, 1, 1, 2] : List ℝ) ∧
     (([1, 1, 1, 1, 2] : List ℝ).length < 5 →
       compute_realised_vol ([1, 1, 1, 1, 2] : List ℝ) = none)) ∧
    compute_realised_vol ([1, 1] : List ℝ) = none := by
  have h1 : ∀ p ∈ ([1, 1, 1, 1, 2] : List ℝ), 0 < p := by
    intro p hp
    simp only [List.mem_cons, List.not_mem_nil, or_false] at hp
    rcases hp with rfl | rfl | rfl | rfl | rfl <;> norm_num
  have h2 : ∀ p ∈ ([1, 1] : List ℝ), 0 < p := by
    intro p hp
    simp only [List.mem_cons, List.not_mem_nil, or_false] at hp
    rcases hp with rfl | rfl <;> norm_num
  exact ⟨h1, claim_C2 _ h1, (claim_C2 _ h2).2.2 (by norm_num)⟩

/-- C5: a series of at least 5 identical positive prices gives exactly
0.0 volatility (not null), in both variants of the estimator. -/
theorem claim_C5 (prices : List ℝ) (c : ℝ) (h5 : 5 ≤ prices.length) (hc : 0 < c)
    (hall : ∀ p ∈ prices, p = c) :
    compute_realised_vol prices = some 0 ∧ realised_vol prices = some 0 := by
  have h := crv_const prices c h5 hc.ne' hall
  exact ⟨h, h⟩

theorem claim_C5_witness :
    5 ≤ ([1, 1, 1, 1, 1] : List ℝ).length ∧ (0 : ℝ) < 1 ∧
    (∀ p ∈ ([1, 1, 1, 1, 1] : List ℝ), p = 1) ∧
    compute_realised_vol ([1, 1, 1, 1, 1] : List ℝ) = some 0 ∧
    realised_vol ([1, 1, 1, 1, 1] : List ℝ) = some 0 := by
  have hall : ∀ p ∈ ([1, 1, 1, 1, 1] : List ℝ), p = 1 := by
    intro p hp
    simp only [List.mem_cons, List.not_mem_nil, or_false] at hp
    rcases hp with rfl | rfl | rfl | rfl | rfl <;> norm_num
  exact ⟨by norm_num, by norm_num, hall,
    claim_C5 _ 1 (by norm_num) (by norm_num) hall⟩

/-- C3: in every assembled snapshot row of either variant, the carry/vol
ratio is null exactly when the volatility is null or equal to 0, and
otherwise equals round(carry / volatility, 3). -/
theorem claim_C3 :
    (∀ (env : Env), ∀ r ∈ (load_data env).1,
       (r.ratio_now = none ↔ r.vol_1m = none ∨ r.vol_1m = some 0) ∧
       (∀ v : ℝ, r.vol_1m = some v → v ≠ 0 →
          r.ratio_now = some (roundR 3 ((r.carry : ℝ) / v)))) ∧
    (∀ (ts : String) (env : Env) (db db' : DB),
       fetch_and_store ts env db = .ok db' →
       ∀ r ∈ db'.snapshots.drop db.snapshots.length,
         (r.ratio_now = none ↔ r.vol_1m = none ∨ r.vol_1m = some 0) ∧
         (∀ v : ℝ, r.vol_1m = some v → v ≠ 0 →
            r.ratio_now = some (roundR 3 ((r.carry : ℝ) / v)))) := by
  constructor
  · intro env r hr
    obtain ⟨c, hc, rfl⟩ := List.mem_map.mp hr
    have hnn : ∀ v, appVolVal (env.percur c.code) c = some v → 0 ≤ v :=
      fun v hv => appVol_nonneg _ c hc v hv
    constructor
    · exact ratioOf_none_iff _ (appVolVal (env.percur c.code) c) hnn
    · intro v hv h0
      have hv2 : appVolVal (env.percur c.code) c = some v := hv
      calc (appRow (resolvedFed env) (resolvedSpots env) (env.percur c.code) c).ratio_now
          = ratioOf ((appRow (resolvedFed env) (resolvedSpots env) (env.percur c.code) c).carry)
              (appVolVal (env.percur c.code) c) := rfl
        _ = some (roundR 3
              (((appRow (resolvedFed env) (resolvedSpots env) (env.percur c.code) c).carry : ℝ) / v)) := by
            rw [hv2]
            exact ratioOf_some _ v h0 (hnn v hv2)
  · intro ts env db db' hok r hr
    cases hv : resolvedFedF env with
    | none =>
      rw [fetch_error ts env db hv] at hok
      simp at hok
    | some f =>
      rw [fetch_ok ts env db f hv] at hok
      simp only [Except.ok.injEq] at hok
      subst hok
      simp only [List.drop_left] at hr
      obtain ⟨c, hc, rfl⟩ := List.mem_map.mp hr
      have hnn : ∀ v, (fVolStep (env.percur c.code) c).1 = some v → 0 ≤ v :=
        fun v hv => fVol_nonneg _ _ v hv
      constructor
      · exact ratioOf_none_iff _ ((fVolStep (env.percur c.code) c).1) hnn
      · intro v hv h0
        have hv2 : (fVolStep (env.percur c.code) c).1 = some v := hv
        calc ((fRowVal ts f (resolvedSpots env) (env.percur c.code) c).1).ratio_now
            = ratioOf (((fRowVal ts f (resolvedSpots env) (env.percur c.code) c).1).carry)
                ((fVolStep (env.percur c.code) c).1) := rfl
          _ = some (roundR 3
                ((((fRowVal ts f (resolvedSpots env) (env.percur c.code) c).1).carry : ℝ) / v)) := by
              rw [hv2]
              exact ratioOf_some _ v h0 (hnn v hv2)

theorem claim_C3_witness :
    ((appRow (resolvedFed envBase) (resolvedSpots envBase) (envBase.percur "EUR") eurC).ratio_now = none
      ↔ (appRow (resolvedFed envBase) (resolvedSpots envBase) (envBase.percur "EUR") eurC).vol_1m = none
        ∨ (appRow (resolvedFed envBase) (resolvedSpots envBase) (envBase.percur "EUR") eurC).vol_1m = some 0) ∧
    (∀ v : ℝ,
      (appRow (resolvedFed envBase) (resolvedSpots envBase) (envBase.percur "EUR") eurC).vol_1m = some v →
      v ≠ 0 →
      (appRow (resolvedFed envBase) (resolvedSpots envBase) (envBase.percur "EUR") eurC).ratio_now
        = some (roundR 3
            (((appRow (resolvedFed envBase) (resolvedSpots envBase) (envBase.percur "EUR") eurC).carry : ℝ) / v))) :=
  claim_C3.1 envBase _ (List.mem_map_of_mem _ (show eurC ∈ CURRENCIES by decide))

/-- C4: for a pegged (GCC) currency the live policy-rate oracle is never
consulted — replacing that oracle leaves the output of both assembler
variants unchanged — and every stored row of that currency carries
policy rate = resolved reference rate + the fixed spread constant. -/
theorem claim_C4 (env : Env) (c : Currency) (p : Except Unit (Option ℚ))
    (hc : c ∈ CURRENCIES) (hg : c.fred_series = none) :
    (∀ r ∈ (load_data env).1, r.code = c.code →
       r.policy_rate = resolvedFed env + (GCC_SPREADS.lookup c.code).getD 0) ∧
    load_data (updatePolicy env c.code p) = load_data env ∧
    (∀ (ts : String) (db db' : DB) (f : ℚ), resolvedFedF env = some f →
       fetch_and_store ts env db = .ok db' →
       ∀ r ∈ db'.snapshots.drop db.snapshots.length, r.code = c.code →
         r.policy_rate = f + (GCC_SPREADS.lookup c.code).getD 0) ∧
    (∀ (ts : String) (db : DB),
       fetch_and_store ts (updatePolicy env c.code p) db = fetch_and_store ts env db) := by
  refine ⟨?_, ?_, ?_, ?_⟩
  · intro r hr hcode
    obtain ⟨c', hc', rfl⟩ := List.mem_map.mp hr
    have hcc : c'.code = c.code := hcode
    obtain rfl : c' = c := code_inj c' hc' c hc hcc
    show appPolicy (resolvedFed env) (env.percur c'.code) c' = _
    simp [appPolicy, hg]
  · have hfed : resolvedFed (updatePolicy env c.code p) = resolvedFed env := rfl
    have hsp : resolvedSpots (updatePolicy env c.code p) = resolvedSpots env := rfl
    simp only [load_data, Prod.mk.injEq]
    constructor
    · refine List.map_congr_left (fun c' hc' => ?_)
      rw [hfed, hsp]
      by_cases hcc : c'.code = c.code
      · obtain rfl : c' = c := code_inj c' hc' c hc hcc
        have hh : ((updatePolicy env c'.code p).percur c'.code).hist = (env.percur c'.code).hist := by
          simp [updatePolicy]
        unfold appRow appPolicy appVolVal
        rw [hg, hh]
      · have hpe : (updatePolicy env c.code p).percur c'.code = env.percur c'.code := by
          simp [updatePolicy, hcc]
        rw [hpe]
    · unfold load_data_flag
      have h1 : fedFellBack (updatePolicy env c.code p) = fedFellBack env := rfl
      have h2 : spotsFellBack (updatePolicy env c.code p) = spotsFellBack env := rfl
      rw [h1, h2, hsp]
      refine congrArg _ (any_congr_mem _ _ _ (fun c' hc' => ?_))
      by_cases hcc : c'.code = c.code
      · obtain rfl : c' = c := code_inj c' hc' c hc hcc
        unfold appRowFlag
        rw [hg]
      · have hpe : (updatePolicy env c.code p).percur c'.code = env.percur c'.code := by
          simp [updatePolicy, hcc]
        rw [hpe]
  · intro ts db db' f hf hok r hr hcode
    rw [fetch_ok ts env db f hf] at hok
    simp only [Except.ok.injEq] at hok
    subst hok
    simp only [List.drop_left] at hr
    obtain ⟨c', hc', rfl⟩ := List.mem_map.mp hr
    have hcc : c'.code = c.code := hcode
    obtain rfl : c' = c := code_inj c' hc' c hc hcc
    show (match c'.fred_series with
          | none => f + (GCC_SPREADS.lookup c'.code).getD 0
          | some _ => pyOrD (fPolicyRaw (env.percur c'.code)) f) = _
    rw [hg]
  · intro ts db
    unfold fetch_and_store
    have hfed : resolvedFedF (updatePolicy env c.code p) = resolvedFedF env := rfl
    have hsp : resolvedSpots (updatePolicy env c.code p) = resolvedSpots env := rfl
    rw [hfed, hsp]
    rw [rowsLoop_congr ts (resolvedFedF env) (resolvedSpots env) env.percur
      (updatePolicy env c.code p).percur CURRENCIES ?_]
    intro c' hc'
    by_cases hcc : c'.code = c.code
    · obtain rfl : c' = c := code_inj c' hc' c hc hcc
      refine fRow_gcc_blind ts _ _ _ _ c' hg ?_
      simp [updatePolicy]
    · have hpe : (updatePolicy env c.code p).percur c'.code = env.percur c'.code := by
        simp [updatePolicy, hcc]
      rw [hpe]

theorem claim_C4_witness :
    sarC ∈ CURRENCIES ∧ sarC.fred_series = none ∧
    ((∀ r ∈ (load_data envBase).1, r.code = sarC.code →
        r.policy_rate = resolvedFed envBase + (GCC_SPREADS.lookup sarC.code).getD 0) ∧
     load_data (updatePolicy envBase sarC.code (.error ())) = load_data envBase ∧
     (∀ (ts : String) (db db' : DB) (f : ℚ), resolvedFedF envBase = some f →
        fetch_and_store ts envBase db = .ok db' →
        ∀ r ∈ db'.snapshots.drop db.snapshots.length, r.code = sarC.code →
          r.policy_rate = f + (GCC_SPREADS.lookup sarC.code).getD 0) ∧
     (∀ (ts : String) (db : DB),
        fetch_and_store ts (updatePolicy envBase sarC.code (.error ())) db
          = fetch_and_store ts envBase db)) :=
  ⟨by decide, rfl, claim_C4 envBase sarC (.error ()) (by decide) rfl⟩

/-- C6 counterexample: in envZ the EUR policy call succeeds with the
live value 0.00 — neither a failure nor a null result — yet the stored
policy rate is the 2.15 fallback literal, not the live value. -/
theorem claim_C6_counterexample :
    (envZ.percur "EUR").policy = .ok (some 0) ∧
    ((load_data envZ).1)[0]?.map Row.policy_rate = some (2.15 : ℚ) ∧
    (2.15 : ℚ) ≠ 0 := by
  refine ⟨rfl, ?_, by norm_num⟩
  show ((CURRENCIES.map
    (fun c => appRow (resolvedFed envZ) (resolvedSpots envZ) (envZ.percur c.code) c))[0]?).map
      Row.policy_rate = some (2.15 : ℚ)
  rw [List.getElem?_map]
  simp only [CURRENCIES, List.getElem?_cons_zero, Option.map_some]
  show some (appPolicy (resolvedFed envZ) (envZ.percur "EUR") ⟨"EUR", "Euro", "G10", some "ECBDFR"⟩)
    = some (2.15 : ℚ)
  simp [appPolicy, envZ, envBase, pyOrD, fbPolicy, FALLBACK]

/-- C6 (amended): for a non-pegged currency, a policy-rate call that
fails, or returns a null or a zero value, stores the per-currency
fallback literal in the cached variant (the reference rate itself if the
code had no fallback entry) and the reference rate in the persistent
variant; a non-null non-zero live value is stored as-is in both. -/
theorem claim_C6_amended (env : Env) (c : Currency) (s : String)
    (hc : c ∈ CURRENCIES) (hs : c.fred_series = some s) :
    (((env.percur c.code).policy = .error () ∨ (env.percur c.code).policy = .ok none ∨
        (env.percur c.code).policy = .ok (some 0)) →
      ∀ r ∈ (load_data env).1, r.code = c.code →
        r.policy_rate = fbPolicy (resolvedFed env) c.code) ∧
    (∀ v : ℚ, (env.percur c.code).policy = .ok (some v) → v ≠ 0 →
      ∀ r ∈ (load_data env).1, r.code = c.code → r.policy_rate = v) ∧
    (∀ (ts : String) (db db' : DB) (f : ℚ), resolvedFedF env = some f →
      fetch_and_store ts env db = .ok db' →
      (((env.percur c.code).policy = .error () ∨ (env.percur c.code).policy = .ok none ∨
          (env.percur c.code).policy = .ok (some 0)) →
        ∀ r ∈ db'.snapshots.drop db.snapshots.length, r.code = c.code →
          r.policy_rate = f) ∧
      (∀ v : ℚ, (env.percur c.code).policy = .ok (some v) → v ≠ 0 →
        ∀ r ∈ db'.snapshots.drop db.snapshots.length, r.code = c.code →
          r.policy_rate = v)) := by
  refine ⟨?_, ?_, ?_⟩
  · intro hfail r hr hcode
    rw [app_rows_policy env c hc r hr hcode]
    unfold appPolicy
    rw [hs]
    rcases hfail with h | h | h <;> rw [h] <;> simp [pyOrD]
  · intro v hv hv0 r hr hcode
    rw [app_rows_policy env c hc r hr hcode]
    unfold appPolicy
    rw [hs, hv]
    simp [pyOrD, hv0]
  · intro ts db db' f hf hok
    constructor
    · intro hfail r hr hcode
      rw [fetch_rows_policy ts env db db' f c hc hf hok r hr hcode, hs]
      rcases hfail with h | h | h <;> simp [fPolicyRaw, h, pyOrD]
    · intro v hv hv0 r hr hcode
      rw [fetch_rows_policy ts env db db' f c hc hf hok r hr hcode, hs]
      simp [fPolicyRaw, hv, pyOrD, hv0]

theorem claim_C6_witness :
    eurC ∈ CURRENCIES ∧ eurC.fred_series = some "ECBDFR" ∧
    ((((envZ.percur eurC.code).policy = .error () ∨ (envZ.percur eurC.code).policy = .ok none ∨
         (envZ.percur eurC.code).policy = .ok (some 0)) →
       ∀ r ∈ (load_data envZ).1, r.code = eurC.code →
         r.policy_rate = fbPolicy (resolvedFed envZ) eurC.code) ∧
     (∀ v : ℚ, (envZ.percur eurC.code).policy = .ok (some v) → v ≠ 0 →
       ∀ r ∈ (load_data envZ).1, r.code = eurC.code → r.policy_rate = v) ∧
     (∀ (ts : String) (db db' : DB) (f : ℚ), resolvedFedF envZ = some f →
       fetch_and_store ts envZ db = .ok db' →
       (((envZ.percur eurC.code).policy = .error () ∨ (envZ.percur eurC.code).policy = .ok none ∨
           (envZ.percur eurC.code).policy = .ok (some 0)) →
         ∀ r ∈ db'.snapshots.drop db.snapshots.length, r.code = eurC.code →
           r.policy_rate = f) ∧
       (∀ v : ℚ, (envZ.percur eurC.code).policy = .ok (some v) → v ≠ 0 →
         ∀ r ∈ db'.snapshots.drop db.snapshots.length, r.code = eurC.code →
           r.policy_rate = v))) :=
  ⟨by decide, rfl, claim_C6_amended envZ eurC "ECBDFR" (by decide) rfl⟩

/-- C7: truthiness is the null check at every fallback site, so a live
zero is treated as missing: a policy rate of 0.00 is replaced by the
fallback (cached) or the reference rate (persistent), a Fed Funds value
of 0.0 becomes 3.75 in the cached variant, an estimator volatility of
exactly 0.0 is replaced by the per-currency fallback volatility, and no
cached snapshot row ever carries a volatility of exactly 0. -/
theorem claim_C7 :
    (∀ (env : Env) (c : Currency) (s : String), c ∈ CURRENCIES → c.fred_series = some s →
       (env.percur c.code).policy = .ok (some 0) →
       ∀ r ∈ (load_data env).1, r.code = c.code →
         r.policy_rate = fbPolicy (resolvedFed env) c.code) ∧
    (∀ env : Env, env.fed = .ok (some 0) →
       resolvedFed env = 3.75 ∧ ∀ r ∈ (load_data env).1, r.fed_rate = 3.75) ∧
    (∀ (env : Env) (c : Currency) (s : String) (h : List (String × ℚ)),
       c ∈ CURRENCIES → c.fred_series = some s → (env.percur c.code).hist = .ok h →
       realised_vol (h.map (fun ds => ((ds.2 : ℚ) : ℝ))) = some 0 →
       ∀ r ∈ (load_data env).1, r.code = c.code → r.vol_1m = fbVol c.code) ∧
    (∀ (env : Env), ∀ r ∈ (load_data env).1, r.vol_1m ≠ some 0) ∧
    (∀ (env : Env) (c : Currency) (s : String) (ts : String) (db db' : DB) (f : ℚ),
       c ∈ CURRENCIES → c.fred_series = some s →
       (env.percur c.code).policy = .ok (some 0) →
       resolvedFedF env = some f → fetch_and_store ts env db = .ok db' →
       ∀ r ∈ db'.snapshots.drop db.snapshots.length, r.code = c.code →
         r.policy_rate = f) := by
  refine ⟨?_, ?_, ?_, ?_, ?_⟩
  · intro env c s hc hs hp r hr hcode
    rw [app_rows_policy env c hc r hr hcode]
    unfold appPolicy
    rw [hs, hp]
    simp [pyOrD]
  · intro env hfed
    have h1 : resolvedFed env = 3.75 := by
      unfold resolvedFed
      rw [hfed]
      simp [pyOrD]
    refine ⟨h1, ?_⟩
    intro r hr
    obtain ⟨c, hc, rfl⟩ := List.mem_map.mp hr
    show resolvedFed env = 3.75
    exact h1
  · intro env c s h hc hs hh hrv r hr hcode
    rw [app_rows_vol env c hc r hr hcode]
    unfold appVolVal
    rw [hs, hh]
    simp [hrv, pyOrR]
  · intro env r hr
    obtain ⟨c, hc, rfl⟩ := List.mem_map.mp hr
    exact appVol_ne_zero (env.percur c.code) c hc
  · intro env c s ts db db' f hc hs hp hf hok r hr hcode
    rw [fetch_rows_policy ts env db db' f c hc hf hok r hr hcode, hs]
    simp [fPolicyRaw, hp, pyOrD]

theorem claim_C7_witness :
    ((envZ.percur eurC.code).policy = .ok (some 0) ∧
     ∀ r ∈ (load_data envZ).1, r.code = eurC.code →
       r.policy_rate = fbPolicy (resolvedFed envZ) eurC.code) ∧
    (envFed0.fed = .ok (some 0) ∧ resolvedFed envFed0 = 3.75 ∧
     ∀ r ∈ (load_data envFed0).1, r.fed_rate = 3.75) ∧
    ((envBase.percur eurC.code).hist = .ok HIST1 ∧
     realised_vol (HIST1.map (fun ds => ((ds.2 : ℚ) : ℝ))) = some 0 ∧
     ∀ r ∈ (load_data envBase).1, r.code = eurC.code → r.vol_1m = fbVol eurC.code) ∧
    ((appRow (resolvedFed envBase) (resolvedSpots envBase) (envBase.percur "EUR") eurC).vol_1m
      ≠ some 0) ∧
    (∃ db', fetch_and_store "2026-01-01T00:00:00" envZ db0 = .ok db' ∧
      ∀ r ∈ db'.snapshots.drop db0.snapshots.length, r.code = eurC.code →
        r.policy_rate = 4) := by
  have hrv : realised_vol (HIST1.map (fun ds => ((ds.2 : ℚ) : ℝ))) = some 0 := by
    have hmap : HIST1.map (fun ds => ((ds.2 : ℚ) : ℝ)) = [1, 1, 1, 1, 1] := by
      simp [HIST1]
    rw [realised_vol, hmap]
    refine crv_const _ 1 (by norm_num) one_ne_zero ?_
    intro p hp
    simp only [List.mem_cons, List.not_mem_nil, or_false] at hp
    rcases hp with rfl | rfl | rfl | rfl | rfl <;> norm_num
  obtain ⟨db', hok⟩ := fetch_isOk "2026-01-01T00:00:00" envZ db0 (by simp [envZ, envBase])
  refine ⟨⟨rfl, claim_C7.1 envZ eurC "ECBDFR" (by decide) rfl rfl⟩,
    ⟨rfl, claim_C7.2.1 envFed0 rfl⟩,
    ⟨rfl, hrv, claim_C7.2.2.1 envBase eurC "ECBDFR" HIST1 (by decide) rfl rfl hrv⟩,
    claim_C7.2.2.2.1 envBase _ (List.mem_map_of_mem _ (show eurC ∈ CURRENCIES by decide)),
    ⟨db', hok, claim_C7.2.2.2.2 envZ eurC "ECBDFR" "2026-01-01T00:00:00" db0 db' 4
      (by decide) rfl rfl rfl hok⟩⟩

/-- C8 counterexample: in envBase the EUR history is successfully
fetched and strictly positive (five identical prices), the Estimator of
the reciprocal-normalized history is 0.0, yet the cached variant stores
the 6.8 fallback volatility — not the Estimator value. -/
theorem claim_C8_counterexample :
    (envBase.percur "EUR").hist = .ok HIST1 ∧
    (∀ ds ∈ HIST1, (0 : ℚ) < ds.2) ∧
    (appRow (resolvedFed envBase) (resolvedSpots envBase) (envBase.percur "EUR") eurC)
      ∈ (load_data envBase).1 ∧
    (appRow (resolvedFed envBase) (resolvedSpots envBase) (envBase.percur "EUR") eurC).vol_1m
      = some ((6.8 : ℚ) : ℝ) ∧
    realised_vol ((HIST1.map (fun ds => ((ds.2 : ℚ) : ℝ))).map (fun p => 1 / p)) = some 0 ∧
    ((6.8 : ℚ) : ℝ) ≠ 0 := by
  have hposh : ∀ ds ∈ HIST1, (0 : ℚ) < ds.2 := by
    intro ds hds
    simp only [HIST1, List.mem_cons, List.not_mem_nil, or_false] at hds
    rcases hds with rfl | rfl | rfl | rfl | rfl <;> norm_num
  have hmap : HIST1.map (fun ds => ((ds.2 : ℚ) : ℝ)) = [1, 1, 1, 1, 1] := by
    simp [HIST1]
  have hall : ∀ p ∈ ([1, 1, 1, 1, 1] : List ℝ), p = 1 := by
    intro p hp
    simp only [List.mem_cons, List.not_mem_nil, or_false] at hp
    rcases hp with rfl | rfl | rfl | rfl | rfl <;> norm_num
  have hrv : realised_vol (HIST1.map (fun ds => ((ds.2 : ℚ) : ℝ))) = some 0 := by
    rw [realised_vol, hmap]
    exact crv_const _ 1 (by norm_num) one_ne_zero hall
  refine ⟨rfl, hposh, List.mem_map_of_mem _ (show eurC ∈ CURRENCIES by decide), ?_, ?_, ?_⟩
  · show appVolVal (envBase.percur "EUR") eurC = some ((6.8 : ℚ) : ℝ)
    unfold appVolVal
    show pyOrR (realised_vol (HIST1.map (fun ds => ((ds.2 : ℚ) : ℝ)))) (fbVol eurC.code)
        = some ((6.8 : ℚ) : ℝ)
    simp only [hrv, pyOrR]
    simp [fbVol, FALLBACK, eurC]
  · have hmap2 : (HIST1.map (fun ds => ((ds.2 : ℚ) : ℝ))).map (fun p => 1 / p)
        = ([1, 1, 1, 1, 1] : List ℝ) := by
      rw [hmap]
      norm_num
    rw [realised_vol, hmap2]
    exact crv_const _ 1 (by norm_num) one_ne_zero hall
  · norm_num

/-- C8 (amended): for a non-pegged currency of the USD-per-unit subset
with a successfully fetched positive-price history, the persistent
variant stores exactly the Estimator value of that history, which equals
the Estimator of the reciprocal-normalized history (the Estimator is
invariant under pointwise reciprocal, so the omitted normalization is
harmless); the cached variant stores it only when the Estimator value is
non-null and non-zero (else the per-currency fallback is stored). -/
theorem claim_C8_amended (env : Env) (c : Currency) (s : String) (h : List (String × ℚ))
    (hc : c ∈ CURRENCIES) (hs : c.fred_series = some s) (hinv : c.code ∈ INVERT_CODES)
    (hh : (env.percur c.code).hist = .ok h)
    (hpos : ∀ ds ∈ h, 0 < ds.2) :
    (∀ (ts : String) (db db' : DB) (f : ℚ), resolvedFedF env = some f →
       fetch_and_store ts env db = .ok db' →
       ∀ r ∈ db'.snapshots.drop db.snapshots.length, r.code = c.code →
         r.vol_1m = compute_realised_vol
           ((h.map (fun ds => ((ds.2 : ℚ) : ℝ))).map (fun p => 1 / p))) ∧
    (∀ v : ℝ, realised_vol (h.map (fun ds => ((ds.2 : ℚ) : ℝ))) = some v → v ≠ 0 →
       ∀ r ∈ (load_data env).1, r.code = c.code →
         r.vol_1m = realised_vol ((h.map (fun ds => ((ds.2 : ℚ) : ℝ))).map (fun p => 1 / p))) := by
  have hposr : ∀ p ∈ h.map (fun ds => ((ds.2 : ℚ) : ℝ)), 0 < p := by
    intro p hp
    obtain ⟨ds, hds, rfl⟩ := List.mem_map.mp hp
    exact_mod_cast hpos ds hds
  have hcrv := crv_inv (h.map (fun ds => ((ds.2 : ℚ) : ℝ))) hposr
  constructor
  · intro ts db db' f hf hok r hr hcode
    rw [fetch_rows_vol ts env db db' f c hc hf hok r hr hcode]
    unfold fVolStep
    rw [hs, hh, hcrv]
  · intro v hrv hv0 r hr hcode
    rw [app_rows_vol env c hc r hr hcode]
    have hstep : appVolVal (env.percur c.code) c
        = pyOrR (realised_vol (h.map (fun ds => ((ds.2 : ℚ) : ℝ)))) (fbVol c.code) := by
      unfold appVolVal
      rw [hs, hh]
    have hR : realised_vol ((h.map (fun ds => ((ds.2 : ℚ) : ℝ))).map (fun p => 1 / p))
        = some v := by
      show compute_realised_vol ((h.map (fun ds => ((ds.2 : ℚ) : ℝ))).map (fun p => 1 / p))
        = some v
      rw [hcrv]
      exact hrv
    rw [hstep, hrv, hR]
    simp [pyOrR, hv0]

theorem claim_C8_witness :
    eurC ∈ CURRENCIES ∧ eurC.fred_series = some "ECBDFR" ∧ eurC.code ∈ INVERT_CODES ∧
    (envBase.percur eurC.code).hist = .ok HIST1 ∧ (∀ ds ∈ HIST1, (0 : ℚ) < ds.2) ∧
    ((∀ (ts : String) (db db' : DB) (f : ℚ), resolvedFedF envBase = some f →
        fetch_and_store ts envBase db = .ok db' →
        ∀ r ∈ db'.snapshots.drop db.snapshots.length, r.code = eurC.code →
          r.vol_1m = compute_realised_vol
            ((HIST1.map (fun ds => ((ds.2 : ℚ) : ℝ))).map (fun p => 1 / p))) ∧
     (∀ v : ℝ, realised_vol (HIST1.map (fun ds => ((ds.2 : ℚ) : ℝ))) = some v → v ≠ 0 →
        ∀ r ∈ (load_data envBase).1, r.code = eurC.code →
          r.vol_1m = realised_vol
            ((HIST1.map (fun ds => ((ds.2 : ℚ) : ℝ))).map (fun p => 1 / p)))) := by
  have hposh : ∀ ds ∈ HIST1, (0 : ℚ) < ds.2 := by
    intro ds hds
    simp only [HIST1, List.mem_cons, List.not_mem_nil, or_false] at hds
    rcases hds with rfl | rfl | rfl | rfl | rfl <;> norm_num
  exact ⟨by decide, rfl, by decide, rfl, hposh,
    claim_C8_amended envBase eurC "ECBDFR" HIST1 (by decide) rfl (by decide) rfl hposh⟩

/-- C9: the spot_history table is unique on (date, code) — an insert for
an already-seen pair is silently ignored, changing nothing and raising
nothing — and a successful fetch cycle only ever appends to both
persisted tables (every prior row survives in place). -/
theorem claim_C9 :
    (∀ (tbl : List (String × String × ℚ)) (r : String × String × ℚ),
       (tbl.any (fun x => x.1 == r.1 && x.2.1 == r.2.1)) = true →
       insertOrIgnore tbl r = tbl) ∧
    (∀ (ts : String) (env : Env) (db db' : DB),
       fetch_and_store ts env db = .ok db' →
       (∃ t, db'.snapshots = db.snapshots ++ t) ∧
       (∃ u, db'.spot_history = db.spot_history ++ u)) := by
  constructor
  · intro tbl r h
    unfold insertOrIgnore
    rw [if_pos h]
  · intro ts env db db' hok
    cases hv : resolvedFedF env with
    | none =>
      rw [fetch_error ts env db hv] at hok
      simp at hok
    | some f =>
      rw [fetch_ok ts env db f hv] at hok
      simp only [Except.ok.injEq] at hok
      subst hok
      exact ⟨⟨_, rfl⟩, foldl_insert_extends _ _⟩

theorem claim_C9_witness :
    insertOrIgnore [("2024-01-01", "EUR", 1)] ("2024-01-01", "EUR", 2)
      = [("2024-01-01", "EUR", 1)] ∧
    (∃ db', fetch_and_store "2026-01-01T00:00:00" envBase db0 = .ok db' ∧
       (∃ t, db'.snapshots = db0.snapshots ++ t) ∧
       (∃ u, db'.spot_history = db0.spot_history ++ u)) := by
  obtain ⟨db', hok⟩ := fetch_isOk "2026-01-01T00:00:00" envBase db0 (by simp [envBase])
  exact ⟨claim_C9.1 _ _ (by decide),
    ⟨db', hok, claim_C9.2 "2026-01-01T00:00:00" envBase db0 db' hok⟩⟩

/-- C10: the latest-row-per-code lookup, over a store in which a code
appears in exactly two cycles at timestamps T1 < T2, returns for that
code only the T2 row. -/
theorem claim_C10 (snap : List FRow) (c : String) (r1 r2 : FRow)
    (hfilter : snap.filter (fun r => r.code == c) = [r1, r2])
    (hT : r1.fetched_at < r2.fetched_at) :
    (latestPerCode snap).filter (fun r => r.code == c) = [r2] := by
  have hmem : ∀ x ∈ snap, (x.code == c) = true → x = r1 ∨ x = r2 := by
    intro x hx hxc
    have : x ∈ snap.filter (fun r => r.code == c) := List.mem_filter.mpr ⟨hx, hxc⟩
    rw [hfilter] at this
    simpa using this
  have hr1 : r1 ∈ snap ∧ (r1.code == c) = true := by
    have : r1 ∈ snap.filter (fun r => r.code == c) := by rw [hfilter]; simp
    exact List.mem_filter.mp this
  have hr2 : r2 ∈ snap ∧ (r2.code == c) = true := by
    have : r2 ∈ snap.filter (fun r => r.code == c) := by rw [hfilter]; simp
    exact List.mem_filter.mp this
  have hcodes : r1.code = r2.code := by
    have h1 : r1.code = c := by simpa using hr1.2
    have h2 : r2.code = c := by simpa using hr2.2
    rw [h1, h2]
  have hlatest2 :
      (snap.all (fun s => !(s.code == r2.code) || !(decide (r2.fetched_at < s.fetched_at)))) = true := by
    rw [List.all_eq_true]
    intro s hs
    by_cases hsc : (s.code == r2.code) = true
    · have hscc : (s.code == c) = true := by
        have h2 : r2.code = c := by simpa using hr2.2
        have : s.code = r2.code := by simpa using hsc
        simp [this, h2]
      rcases hmem s hs hscc with rfl | rfl
      · have : ¬ r2.fetched_at < s.fetched_at := asymm hT
        simp [this]
      · have : ¬ s.fetched_at < s.fetched_at := lt_irrefl _
        simp [this]
    · simp [hsc]
  have hlatest1 :
      (snap.all (fun s => !(s.code == r1.code) || !(decide (r1.fetched_at < s.fetched_at)))) = false := by
    rw [Bool.eq_false_iff]
    intro hall
    rw [List.all_eq_true] at hall
    have hr2all := hall r2 hr2.1
    have hbe : (r2.code == r1.code) = true := by simp [hcodes]
    rw [hbe, decide_eq_true hT] at hr2all
    simp at hr2all
  have hchain : (latestPerCode snap).filter (fun r => r.code == c)
      = (snap.filter (fun r => r.code == c)).filter
          (fun r => snap.all
            (fun s => !(s.code == r.code) || !(decide (r.fetched_at < s.fetched_at)))) := by
    unfold latestPerCode
    rw [List.filter_filter, List.filter_filter]
    exact List.filter_congr (fun x hx => by rw [Bool.and_comm])
  rw [hchain, hfilter]
  rw [List.filter_cons_of_neg (by rw [hlatest1]; exact Bool.false_ne_true),
    List.filter_cons_of_pos (by rw [hlatest2]), List.filter_nil]

theorem claim_C10_witness :
    ([frowAt "2024-01-01T00:00:00" 1, frowAt "2024-02-01T00:00:00" 2].filter
        (fun r => r.code == "EUR"))
      = [frowAt "2024-01-01T00:00:00" 1, frowAt "2024-02-01T00:00:00" 2] ∧
    (frowAt "2024-01-01T00:00:00" 1).fetched_at < (frowAt "2024-02-01T00:00:00" 2).fetched_at ∧
    (latestPerCode [frowAt "2024-01-01T00:00:00" 1, frowAt "2024-02-01T00:00:00" 2]).filter
        (fun r => r.code == "EUR")
      = [frowAt "2024-02-01T00:00:00" 2] := by
  have hT : (frowAt "2024-01-01T00:00:00" 1).fetched_at
      < (frowAt "2024-02-01T00:00:00" 2).fetched_at := by
    show ("2024-01-01T00:00:00" : String) < "2024-02-01T00:00:00"
    rw [String.lt_iff_toList_lt]
    decide
  exact ⟨rfl, hT, claim_C10 _ "EUR" _ _ rfl hT⟩

/-- C1 counterexample: in envX the EUR policy call succeeds with a
missing value — a provider failure in the sense of the claim — and the
field degrades to the 2.15 fallback literal, yet the cycle fallback flag
stays false; and in envY a FEDFUNDS call succeeding with a missing value
makes the persistent assembler raise out of the whole cycle instead of
degrading. -/
theorem claim_C1_counterexample :
    (envX.percur "EUR").policy = .ok none ∧
    ((load_data envX).1)[0]?.map Row.policy_rate = some (2.15 : ℚ) ∧
    (load_data envX).2 = false ∧
    envY.fed = .ok none ∧
    fetch_and_store "2026-01-01T00:00:00" envY db0 = .error () := by
  refine ⟨rfl, ?_, ?_, rfl, fetch_error _ envY db0 rfl⟩
  · show ((CURRENCIES.map
      (fun c => appRow (resolvedFed envX) (resolvedSpots envX) (envX.percur c.code) c))[0]?).map
        Row.policy_rate = some (2.15 : ℚ)
    rw [List.getElem?_map]
    simp only [CURRENCIES, List.getElem?_cons_zero, Option.map_some]
    show some (appPolicy (resolvedFed envX) (envX.percur "EUR") ⟨"EUR", "Euro", "G10", some "ECBDFR"⟩)
      = some (2.15 : ℚ)
    simp [appPolicy, envX, envBase, pyOrD, fbPolicy, FALLBACK]
  · show load_data_flag envX = false
    decide

/-- C1 (amended): the cached assembler always yields exactly one row per
configured currency and its fallback flag is flipped by provider
exceptions and by missing or zero batched spot values, but not by a
policy-rate, Fed-Funds or history value that arrives null — those
degrade silently; a failure in one currency oracle never disturbs the
rows of the other currencies; the persistent assembler raises out of the
cycle exactly when the Fed call succeeds with a missing value and
otherwise appends one row per configured currency. -/
theorem claim_C1_amended :
    (∀ env : Env, ((load_data env).1).map Row.code = CURRENCIES.map Currency.code) ∧
    (∀ (env : Env) (fv : Option ℚ) (sl : List (String × ℚ)),
       env.fed = .ok fv → env.spots = .ok sl →
       (∀ c ∈ CURRENCIES, c.fred_series ≠ none →
          (∃ p, (env.percur c.code).policy = .ok p) ∧
          (∃ h, (env.percur c.code).hist = .ok h) ∧
          (∃ x, sl.lookup c.code = some x ∧ x ≠ 0)) →
       (load_data env).2 = false) ∧
    (∀ (env : Env) (e : Unit), env.fed = .error e → (load_data env).2 = true) ∧
    (∀ (env : Env) (c : Currency), c ∈ CURRENCIES → c.fred_series ≠ none →
       (env.percur c.code).policy = .error () → (load_data env).2 = true) ∧
    (∀ (env : Env) (c : Currency), c ∈ CURRENCIES → c.fred_series ≠ none →
       (env.percur c.code).hist = .error () → (load_data env).2 = true) ∧
    (∀ (env : Env) (c : Currency), c ∈ CURRENCIES → c.fred_series ≠ none →
       (resolvedSpots env).lookup c.code = none → (load_data env).2 = true) ∧
    (∀ (env : Env) (d : String) (ce : CurrencyEnv) (i : ℕ) (c : Currency),
       CURRENCIES[i]? = some c → c.code ≠ d →
       ((load_data (updatePercur env d ce)).1)[i]? = ((load_data env).1)[i]?) ∧
    (∀ (ts : String) (env : Env) (db : DB), env.fed = .ok none →
       fetch_and_store ts env db = .error ()) ∧
    (∀ (ts : String) (env : Env) (db : DB), env.fed ≠ .ok none →
       ∃ db', fetch_and_store ts env db = .ok db' ∧
         (db'.snapshots.drop db.snapshots.length).map FRow.code
           = CURRENCIES.map Currency.code) := by
  refine ⟨?_, ?_, ?_, ?_, ?_, ?_, ?_, ?_, ?_⟩
  · intro env
    show (CURRENCIES.map _).map Row.code = _
    rw [List.map_map]
    exact List.map_congr_left (fun c _ => rfl)
  · intro env fv sl hfed hsp hall
    have h1 : fedFellBack env = false := by
      unfold fedFellBack
      rw [hfed]
    have h2 : spotsFellBack env = false := by
      unfold spotsFellBack
      rw [hsp]
    have hsp2 : resolvedSpots env = sl := by
      unfold resolvedSpots
      rw [hsp]
    have h3 : CURRENCIES.any
        (fun c => appRowFlag (resolvedSpots env) (env.percur c.code) c) = false := by
      rw [List.any_eq_false]
      intro c hc
      cases hser : c.fred_series with
      | none => simp [appRowFlag, hser]
      | some s =>
        obtain ⟨⟨p, hp⟩, ⟨hl, hh⟩, ⟨x, hx, hx0⟩⟩ := hall c hc (by simp [hser])
        unfold appRowFlag
        rw [hser, hp, hh, hsp2, hx]
        simp [hx0]
    show load_data_flag env = false
    unfold load_data_flag
    rw [h1, h2, h3]
    rfl
  · intro env e h
    show load_data_flag env = true
    unfold load_data_flag fedFellBack
    rw [h]
    simp
  · intro env c hc hne hp
    obtain ⟨s, hser⟩ := Option.ne_none_iff_exists'.mp hne
    show load_data_flag env = true
    unfold load_data_flag
    have hany : CURRENCIES.any
        (fun c' => appRowFlag (resolvedSpots env) (env.percur c'.code) c') = true := by
      rw [List.any_eq_true]
      refine ⟨c, hc, ?_⟩
      unfold appRowFlag
      rw [hser, hp]
      simp
    rw [hany]
    simp
  · intro env c hc hne hh
    obtain ⟨s, hser⟩ := Option.ne_none_iff_exists'.mp hne
    show load_data_flag env = true
    unfold load_data_flag
    have hany : CURRENCIES.any
        (fun c' => appRowFlag (resolvedSpots env) (env.percur c'.code) c') = true := by
      rw [List.any_eq_true]
      refine ⟨c, hc, ?_⟩
      unfold appRowFlag
      rw [hser, hh]
      simp
    rw [hany]
    simp
  · intro env c hc hne hlook
    obtain ⟨s, hser⟩ := Option.ne_none_iff_exists'.mp hne
    show load_data_flag env = true
    unfold load_data_flag
    have hany : CURRENCIES.any
        (fun c' => appRowFlag (resolvedSpots env) (env.percur c'.code) c') = true := by
      rw [List.any_eq_true]
      refine ⟨c, hc, ?_⟩
      unfold appRowFlag
      rw [hser, hlook]
      simp
    rw [hany]
    simp
  · intro env d ce i c hci hcd
    show ((CURRENCIES.map _)[i]?) = ((CURRENCIES.map _)[i]?)
    rw [List.getElem?_map, List.getElem?_map, hci]
    simp only [Option.map_some']
    refine congrArg some ?_
    have hpe : (updatePercur env d ce).percur c.code = env.percur c.code := by
      simp [updatePercur, hcd]
    rw [show resolvedFed (updatePercur env d ce) = resolvedFed env from rfl,
      show resolvedSpots (updatePercur env d ce) = resolvedSpots env from rfl, hpe]
  · intro ts env db hf
    exact fetch_error ts env db ((fedF_none_iff env).mpr hf)
  · intro ts env db hf
    cases hv : resolvedFedF env with
    | none => exact absurd ((fedF_none_iff env).mp hv) hf
    | some f =>
      refine ⟨_, fetch_ok ts env db f hv, ?_⟩
      show ((db.snapshots ++ _).drop db.snapshots.length).map FRow.code = _
      rw [List.drop_left, List.map_map]
      exact List.map_congr_left (fun c _ => rfl)

theorem claim_C1_witness :
    ((load_data envBase).1).map Row.code = CURRENCIES.map Currency.code ∧
    (load_data envBase).2 = false ∧
    (load_data envFedErr).2 = true ∧
    (load_data envPolErr).2 = true ∧
    (load_data envHistErr).2 = true ∧
    (load_data envSpotMiss).2 = true ∧
    ((load_data (updatePercur envBase "JPY"
        { policy := .error (), hist := .error () })).1)[0]?
      = ((load_data envBase).1)[0]? ∧
    fetch_and_store "2026-01-01T00:00:00" envY db0 = .error () ∧
    (∃ db', fetch_and_store "2026-01-01T00:00:00" envBase db0 = .ok db' ∧
       (db'.snapshots.drop db0.snapshots.length).map FRow.code
         = CURRENCIES.map Currency.code) := by
  have hall : ∀ c ∈ CURRENCIES, c.fred_series ≠ none →
      (∃ p, (envBase.percur c.code).policy = .ok p) ∧
      (∃ h, (envBase.percur c.code).hist = .ok h) ∧
      (∃ x, SPOTS0.lookup c.code = some x ∧ x ≠ 0) := by
    intro c hc hne
    fin_cases hc <;>
      first
        | exact absurd rfl hne
        | exact ⟨⟨some 2, rfl⟩, ⟨HIST1, rfl⟩, ⟨_, rfl, by norm_num⟩⟩
  refine ⟨claim_C1_amended.1 envBase,
    claim_C1_amended.2.1 envBase (some 4) SPOTS0 rfl rfl hall,
    claim_C1_amended.2.2.1 envFedErr () rfl,
    claim_C1_amended.2.2.2.1 envPolErr eurC (by decide) (by simp [eurC]) rfl,
    claim_C1_amended.2.2.2.2.1 envHistErr eurC (by decide) (by simp [eurC]) rfl,
    claim_C1_amended.2.2.2.2.2.1 envSpotMiss eurC (by decide) (by simp [eurC]) rfl,
    claim_C1_amended.2.2.2.2.2.2.1 envBase "JPY"
      { policy := .error (), hist := .error () } 0 eurC rfl (by decide),
    claim_C1_amended.2.2.2.2.2.2.2.1 "2026-01-01T00:00:00" envY db0 rfl,
    claim_C1_amended.2.2.2.2.2.2.2.2 "2026-01-01T00:00:00" envBase db0 (by simp [envBase])⟩

end FxLens

